import Mathlib

/-!
A shallow embedding of the `loggable-object` log store
(`src/loggable-object.ts`, class `LoggableObject`): the `_logs` table, the
append path (`log` / `warn` / `error` / `_addLogEntry`), the retention sweep
(`_cleanupOldLogs`), the filtered paginated query engine (`getLogs`), the
HTTP filter-parameter parsing of `handleLogRequest`, and — modelled from the
spec, since the streaming `Logger` class is not part of the sources — the
live-tail stream session.

The SQLite store is modelled as a Lean `List` of rows in insertion order.
SQLite TEXT comparison is `memcmp` on UTF-8 bytes, which coincides with
lexicographic comparison of code points (`lexLe` below); `LIKE` is modelled
with its default semantics: `%` and `_` wildcards, ASCII-case-insensitive.
JavaScript numbers reaching the `limit` / `offset` filter fields are modelled
as `JsNum` (an integer or `NaN`), with JavaScript truthiness.
-/

/-- The three log levels of the `LogLevel` union type in the source. -/
inductive LogLevel where
  | info
  | warn
  | error
deriving DecidableEq, Repr

/-- A row of the `_logs` table (`Log` type in the source). -/
structure Log where
  id : Nat
  timestamp : String
  level : LogLevel
  message : String
deriving DecidableEq, Repr

/-- A JavaScript number as it can appear in `LogFilter.limit` / `offset`:
either an actual (integer-valued) number or `NaN` (e.g. from `parseInt` on a
non-numeric string). -/
inductive JsNum where
  | nan
  | int (n : Int)
deriving DecidableEq, Repr

/-- JavaScript truthiness of a `JsNum`: `NaN` and `0` are falsy. -/
def JsNum.truthy : JsNum → Bool
  | .nan => false
  | .int n => n != 0

/-- The `LogFilter` type of the source.  `none` models an absent field.
`from` / `to` are modelled as the ISO strings compared by SQL (a `Date`
argument is converted with `toISOString()` before use). -/
structure LogFilter where
  level : Option LogLevel := none
  search : Option String := none
  from' : Option String := none
  to' : Option String := none
  limit : Option JsNum := none
  offset : Option JsNum := none
deriving DecidableEq, Repr

/-- Result of `getLogs`. -/
structure GetLogsResult where
  logs : List Log
  total : Nat
deriving DecidableEq, Repr

/-- SQLite TEXT comparison (`memcmp` over UTF-8 bytes): lexicographic
comparison of code points. -/
def lexLe : List Char → List Char → Bool
  | [], _ => true
  | _ :: _, [] => false
  | a :: as, b :: bs =>
    if a.toNat < b.toNat then true
    else if b.toNat < a.toNat then false
    else lexLe as bs

theorem lexLe_refl (l : List Char) : lexLe l l = true := by
  induction l with
  | nil => rfl
  | cons a as ih => simp [lexLe, ih]

theorem lexLe_total (a b : List Char) : lexLe a b = true ∨ lexLe b a = true := by
  induction a generalizing b with
  | nil => left; rfl
  | cons x xs ih =>
    cases b with
    | nil => right; rfl
    | cons y ys =>
      by_cases hxy : x.toNat < y.toNat
      · left; simp [lexLe, hxy]
      · by_cases hyx : y.toNat < x.toNat
        · right; simp [lexLe, hyx]
        · rcases ih ys with h | h
          · left; simp [lexLe, hxy, hyx, h]
          · right; simp [lexLe, hxy, hyx, h]

theorem lexLe_trans {a b c : List Char} (hab : lexLe a b = true)
    (hbc : lexLe b c = true) : lexLe a c = true := by
  induction a generalizing b c with
  | nil => rfl
  | cons x xs ih =>
    cases b with
    | nil => simp [lexLe] at hab
    | cons y ys =>
      cases c with
      | nil => simp [lexLe] at hbc
      | cons z zs =>
        simp only [lexLe] at hab hbc ⊢
        by_cases hxy : x.toNat < y.toNat
        · by_cases hyz : y.toNat < z.toNat
          · simp [Nat.lt_trans hxy hyz]
          · by_cases hzy : z.toNat < y.toNat
            · simp [hyz, hzy] at hbc
            · have hyz' : y.toNat = z.toNat := Nat.le_antisymm (Nat.le_of_not_lt hzy) (Nat.le_of_not_lt hyz)
              simp [hyz' ▸ hxy]
        · by_cases hyx : y.toNat < x.toNat
          · simp [hxy, hyx] at hab
          · have hxy' : x.toNat = y.toNat := Nat.le_antisymm (Nat.le_of_not_lt hyx) (Nat.le_of_not_lt hxy)
            by_cases hyz : y.toNat < z.toNat
            · simp [hxy' ▸ hyz]
            · by_cases hzy : z.toNat < y.toNat
              · simp [hyz, hzy] at hbc
              · simp only [hxy' ▸ hyz, hxy' ▸ hzy, if_false]
                simp only [hxy, hyx, if_false] at hab
                simp only [hyz, hzy, if_false] at hbc
                exact ih hab hbc

/-- SQLite's default case folding for `LIKE`: ASCII letters only. -/
def asciiLower (c : Char) : Char :=
  if 65 ≤ c.toNat ∧ c.toNat ≤ 90 then Char.ofNat (c.toNat + 32) else c

/-- SQLite `LIKE` matching (default, no ESCAPE): `%` matches any sequence,
`_` matches any single character, other characters compare
ASCII-case-insensitively.  Second argument is the pattern, third the text.
Every step consumes at least one character of the pattern or the text, so the
fuel `likeMatch` supplies (their combined length plus one) is never
exhausted; it only makes the recursion structural. -/
def likeMatchAux : Nat → List Char → List Char → Bool
  | 0, _, _ => false
  | fuel + 1, ps, cs =>
    match ps, cs with
    | [], [] => true
    | [], _ :: _ => false
    | '%' :: ps', [] => likeMatchAux fuel ps' []
    | '%' :: ps', c :: cs' =>
      likeMatchAux fuel ps' (c :: cs') || likeMatchAux fuel ('%' :: ps') cs'
    | '_' :: _, [] => false
    | '_' :: ps', _ :: cs' => likeMatchAux fuel ps' cs'
    | _ :: _, [] => false
    | p :: ps', c :: cs' => (asciiLower p = asciiLower c) && likeMatchAux fuel ps' cs'

/-- SQLite `LIKE`: pattern first, text second. -/
def likeMatch (ps cs : List Char) : Bool :=
  likeMatchAux (ps.length + cs.length + 1) ps cs

/-- `text LIKE pattern` on strings. -/
def sqliteLike (pattern text : String) : Bool :=
  likeMatch pattern.toList text.toList

/-- The WHERE clause built by `getLogs`: every filter field that passes the
JavaScript truthiness test contributes one conjunct
(`level = ?`, `message LIKE '%search%'`, `timestamp >= from`,
`timestamp <= to`). -/
def matchesFilter (f : LogFilter) (e : Log) : Bool :=
  (match f.level with
   | none => true
   | some l => e.level = l) &&
  (match f.search with
   | none => true
   | some s => if s = "" then true else sqliteLike ("%" ++ s ++ "%") e.message) &&
  (match f.from' with
   | none => true
   | some s => if s = "" then true else lexLe s.toList e.timestamp.toList) &&
  (match f.to' with
   | none => true
   | some s => if s = "" then true else lexLe e.timestamp.toList s.toList)

/-- `ORDER BY timestamp DESC`: row `a` may precede row `b` when `b`'s
timestamp is at most `a`'s. -/
def tsDesc (a b : Log) : Prop := lexLe b.timestamp.toList a.timestamp.toList = true

instance : DecidableRel tsDesc := fun a b => by unfold tsDesc; infer_instance

instance : IsTotal Log tsDesc :=
  ⟨fun a b => (lexLe_total b.timestamp.toList a.timestamp.toList).imp id id⟩

instance : IsTrans Log tsDesc :=
  ⟨fun _ _ _ hab hbc => lexLe_trans hbc hab⟩

/-- Oldest-first order on rows (used by the spec-modelled live-tail replay). -/
def tsAsc (a b : Log) : Prop := lexLe a.timestamp.toList b.timestamp.toList = true

instance : DecidableRel tsAsc := fun a b => by unfold tsAsc; infer_instance

instance : IsTotal Log tsAsc := ⟨fun a b => lexLe_total a.timestamp.toList b.timestamp.toList⟩

instance : IsTrans Log tsAsc := ⟨fun _ _ _ hab hbc => lexLe_trans hab hbc⟩

/-- The `LIMIT` clause value actually applied by `getLogs`: present only when
`filter.limit` is truthy (`if (filter.limit)` in the source). -/
def effLimit (f : LogFilter) : Option Int :=
  match f.limit with
  | some (.int n) => if n = 0 then none else some n
  | _ => none

/-- The `OFFSET` clause value actually applied by `getLogs`: present only
when `filter.offset` is truthy, and only inside the `filter.limit` branch. -/
def effOffset (f : LogFilter) : Option Int :=
  match f.offset with
  | some (.int n) => if n = 0 then none else some n
  | _ => none

/-- `getLogs(filter)` on a store `db` (rows in insertion order):
`SELECT * FROM _logs WHERE <filter> ORDER BY timestamp DESC
[LIMIT ? [OFFSET ?]]` together with the unpaginated `COUNT(*)` under the same
WHERE clause.  SQLite treats a negative `LIMIT` as "no limit" and a negative
`OFFSET` as `0`. -/
def getLogs (db : List Log) (f : LogFilter := {}) : GetLogsResult :=
  let matched := db.filter (matchesFilter f)
  let total := matched.length
  let ordered := List.insertionSort tsDesc matched
  let logs :=
    match effLimit f with
    | none => ordered
    | some n =>
      let page :=
        match effOffset f with
        | none => ordered
        | some m => ordered.drop m.toNat
      if n < 0 then page else page.take n.toNat
  ⟨logs, total⟩

/-- A JSON-representable JavaScript value (an `object` argument of
`log` / `warn` / `error`).  Numbers are modelled as integers. -/
inductive JsonValue where
  | jnull
  | jbool (b : Bool)
  | jnum (n : Int)
  | jstr (s : String)
  | jarr (elems : List JsonValue)
  | jobj (fields : List (String × JsonValue))

/-- The decimal digit character for `n < 10`. -/
def digitChar (n : Nat) : Char := Char.ofNat (48 + n)

/-- Decimal digits of `n`, most significant first, via explicit fuel so that
the definition is structurally recursive. -/
def natDigitsAux : Nat → Nat → List Char → List Char
  | 0, _, acc => acc
  | fuel + 1, n, acc =>
    if n < 10 then digitChar n :: acc
    else natDigitsAux fuel (n / 10) (digitChar (n % 10) :: acc)

/-- Decimal digits of `n`, most significant first (`n = 0` gives `"0"`). -/
def natDigits (n : Nat) : List Char := natDigitsAux (n + 1) n []

/-- The characters `JSON.stringify` emits for an integer-valued number. -/
def intChars : Int → List Char
  | .ofNat n => natDigits n
  | .negSucc n => '-' :: natDigits (n + 1)

/-- Lowercase hexadecimal digit character for `n < 16`. -/
def hexDig (n : Nat) : Char :=
  if n < 10 then Char.ofNat (48 + n) else Char.ofNat (87 + n)

/-- How `JSON.stringify` escapes one character inside a string literal. -/
def escChar (c : Char) : List Char :=
  if c = '"' then ['\\', '"']
  else if c = '\\' then ['\\', '\\']
  else if c.toNat = 8 then ['\\', 'b']
  else if c.toNat = 9 then ['\\', 't']
  else if c.toNat = 10 then ['\\', 'n']
  else if c.toNat = 12 then ['\\', 'f']
  else if c.toNat = 13 then ['\\', 'r']
  else if c.toNat < 32 then ['\\', 'u', '0', '0', hexDig (c.toNat / 16), hexDig (c.toNat % 16)]
  else [c]

/-- Escape every character of a string body. -/
def escChars : List Char → List Char
  | [] => []
  | c :: cs => escChar c ++ escChars cs

/-- A JSON string literal: quote, escaped body, quote. -/
def quoteChars (s : String) : List Char := '"' :: (escChars s.toList ++ ['"'])

mutual
/-- The characters of `JSON.stringify(v)` (compact form: single argument,
no indentation). -/
def renderJson : JsonValue → List Char
  | .jnull => ['n', 'u', 'l', 'l']
  | .jbool true => ['t', 'r', 'u', 'e']
  | .jbool false => ['f', 'a', 'l', 's', 'e']
  | .jnum n => intChars n
  | .jstr s => quoteChars s
  | .jarr xs => '[' :: (renderElems xs ++ [']'])
  | .jobj kvs => '\x7b' :: (renderFields kvs ++ ['\x7d'])

/-- Comma-separated compact renderings of array elements. -/
def renderElems : List JsonValue → List Char
  | [] => []
  | [x] => renderJson x
  | x :: y :: xs => renderJson x ++ ',' :: renderElems (y :: xs)

/-- Comma-separated compact renderings of object members. -/
def renderFields : List (String × JsonValue) → List Char
  | [] => []
  | [(k, v)] => quoteChars k ++ ':' :: renderJson v
  | (k, v) :: kv :: kvs => quoteChars k ++ ':' :: renderJson v ++ ',' :: renderFields (kv :: kvs)
end

/-- `JSON.stringify(v)` as a Lean string. -/
def jsonStringify (v : JsonValue) : String := String.mk (renderJson v)

/-- `n` space characters. -/
def nSpaces : Nat → List Char
  | 0 => []
  | n + 1 => ' ' :: nSpaces n

mutual
/-- Modelled from the spec: the "indented (pretty-printed) JSON
serialization" the spec prescribes for structured payloads, i.e.
`JSON.stringify(v, null, 2)`: members on their own lines, two more spaces of
indentation per nesting level, `": "` after keys, empty arrays and objects
kept compact. -/
def renderJsonIndented : Nat → JsonValue → List Char
  | _, .jnull => ['n', 'u', 'l', 'l']
  | _, .jbool true => ['t', 'r', 'u', 'e']
  | _, .jbool false => ['f', 'a', 'l', 's', 'e']
  | _, .jnum n => intChars n
  | _, .jstr s => quoteChars s
  | _, .jarr [] => ['[', ']']
  | ind, .jarr (x :: xs) =>
    '[' :: '\n' :: (nSpaces (ind + 2) ++ renderElemsIndented (ind + 2) (x :: xs)
      ++ '\n' :: (nSpaces ind ++ [']']))
  | _, .jobj [] => ['\x7b', '\x7d']
  | ind, .jobj (kv :: kvs) =>
    '\x7b' :: '\n' :: (nSpaces (ind + 2) ++ renderFieldsIndented (ind + 2) (kv :: kvs)
      ++ '\n' :: (nSpaces ind ++ ['\x7d']))

/-- Modelled from the spec: indented array elements, separated by a comma,
a newline and the current indentation. -/
def renderElemsIndented : Nat → List JsonValue → List Char
  | _, [] => []
  | ind, [x] => renderJsonIndented ind x
  | ind, x :: y :: xs =>
    renderJsonIndented ind x ++ ',' :: '\n' :: (nSpaces ind ++ renderElemsIndented ind (y :: xs))

/-- Modelled from the spec: indented object members `"key": value`,
separated by a comma, a newline and the current indentation. -/
def renderFieldsIndented : Nat → List (String × JsonValue) → List Char
  | _, [] => []
  | ind, [(k, v)] => quoteChars k ++ ':' :: ' ' :: renderJsonIndented ind v
  | ind, (k, v) :: kv :: kvs =>
    quoteChars k ++ ':' :: ' ' :: renderJsonIndented ind v
      ++ ',' :: '\n' :: (nSpaces ind ++ renderFieldsIndented ind (kv :: kvs))
end

/-- Modelled from the spec: `JSON.stringify(v, null, 2)` as a Lean string. -/
def jsonStringifyIndented (v : JsonValue) : String := String.mk (renderJsonIndented 0 v)

/-- A `string | object` argument of `log` / `warn` / `error`. -/
inductive LogPayload where
  | str (s : String)
  | obj (v : JsonValue)

/-- The message string actually stored by `_addLogEntry`:
`typeof message === "string" ? message : JSON.stringify(message)`. -/
def payloadMessage : LogPayload → String
  | .str s => s
  | .obj v => jsonStringify v

/-- `_addLogEntry(level, message)`: one `INSERT INTO _logs` of the current
ISO timestamp, the level and the resolved message string.  The wall-clock
reading `new Date().toISOString()` and the `AUTOINCREMENT` id are supplied
as the `timestamp` / `nextId` parameters. -/
def addLogEntry (db : List Log) (nextId : Nat) (level : LogLevel)
    (timestamp : String) (message : LogPayload) : List Log :=
  db ++ [⟨nextId, timestamp, level, payloadMessage message⟩]

/-- The `log` method: `_addLogEntry("info", message)`. -/
def log (db : List Log) (nextId : Nat) (timestamp : String)
    (message : LogPayload) : List Log :=
  addLogEntry db nextId .info timestamp message

/-- The `warn` method: `_addLogEntry("warn", message)`. -/
def warn (db : List Log) (nextId : Nat) (timestamp : String)
    (message : LogPayload) : List Log :=
  addLogEntry db nextId .warn timestamp message

/-- The `error` method: `_addLogEntry("error", message)`. -/
def error (db : List Log) (nextId : Nat) (timestamp : String)
    (message : LogPayload) : List Log :=
  addLogEntry db nextId .error timestamp message

/-- Strict SQLite TEXT comparison, `a < b` as `memcmp` orders it. -/
def lexLt (a b : List Char) : Bool := !lexLe b a

/-- `_cleanupOldLogs`: `DELETE FROM _logs WHERE timestamp < ?` where the
bound value is the ISO string of `now - retainLogHours` hours, supplied here
as the `cutoffIso` parameter. -/
def cleanupOldLogs (db : List Log) (cutoffIso : String) : List Log :=
  db.filter (fun e => !lexLt e.timestamp.toList cutoffIso.toList)

/-- The query parameters of a `GET /log` request as `handleLogRequest` reads
them: `none` models an absent parameter, `some s` a present one whose value
(`url.searchParams.get`) is `s`, possibly the empty string. -/
structure QueryParams where
  level : Option String := none
  search : Option String := none
  from' : Option String := none
  to' : Option String := none
  limit : Option String := none
  offset : Option String := none
deriving DecidableEq, Repr

/-- A decimal digit character. -/
def isDig (c : Char) : Bool := 48 ≤ c.toNat && c.toNat ≤ 57

/-- Whitespace skipped by JavaScript `parseInt`. -/
def isJsWhitespace (c : Char) : Bool :=
  c = ' ' || c = '\t' || c = '\n' || c = '\r' || c.toNat = 11 || c.toNat = 12

/-- The numeric value of a digit sequence, most significant first. -/
def digitsToNat (ds : List Char) : Nat :=
  ds.foldl (fun acc c => 10 * acc + (c.toNat - 48)) 0

/-- `parseInt(s, 10)` after whitespace stripping: an optional sign followed
by the longest run of decimal digits; `NaN` when no digit is found. -/
def jsParseIntCore (cs : List Char) : JsNum :=
  match cs with
  | '-' :: rest =>
    let ds := rest.takeWhile isDig
    if ds.isEmpty then .nan else .int (-(digitsToNat ds : Int))
  | '+' :: rest =>
    let ds := rest.takeWhile isDig
    if ds.isEmpty then .nan else .int (digitsToNat ds)
  | _ =>
    let ds := cs.takeWhile isDig
    if ds.isEmpty then .nan else .int (digitsToNat ds)

/-- JavaScript `parseInt(s, 10)`. -/
def jsParseInt (s : String) : JsNum :=
  jsParseIntCore (s.toList.dropWhile isJsWhitespace)

/-- The `["info", "warn", "error"].includes(level)` check. -/
def parseLevelParam (s : String) : Option LogLevel :=
  if s = "info" then some .info
  else if s = "warn" then some .warn
  else if s = "error" then some .error
  else none

/-- The filter `handleLogRequest` builds from the query parameters:
an unrecognized `level` is dropped; empty `search` / `from` / `to` values
collapse to absent (`get(..) || undefined`); `limit` defaults to `100` when
absent and is `parseInt(value || "100", 10)` when present; `offset` is only
set when present, as `parseInt(value || "0", 10)`. -/
def parseLogFilter (q : QueryParams) : LogFilter :=
  { level :=
      match q.level with
      | none => none
      | some s => parseLevelParam s
    search :=
      match q.search with
      | none => none
      | some s => if s = "" then none else some s
    from' :=
      match q.from' with
      | none => none
      | some s => if s = "" then none else some s
    to' :=
      match q.to' with
      | none => none
      | some s => if s = "" then none else some s
    limit :=
      some (match q.limit with
        | none => .int 100
        | some s => jsParseInt (if s = "" then "100" else s))
    offset :=
      match q.offset with
      | none => none
      | some s => some (jsParseInt (if s = "" then "0" else s)) }

/-- The response `handleLogRequest` produces for a `GET /log` request. -/
structure LogResponse where
  status : Nat
  contentType : String
  result : GetLogsResult
deriving DecidableEq, Repr

/-- `handleLogRequest` on a `GET /log` request: build the filter from the
query parameters, run `getLogs`, and answer `200` with HTML when the Accept
header mentions `text/html`, JSON otherwise.  It is total: no combination of
filter parameters is rejected. -/
def handleLogRequest (db : List Log) (q : QueryParams) (acceptsHtml : Bool) : LogResponse :=
  let result := getLogs db (parseLogFilter q)
  if acceptsHtml then ⟨200, "text/html", result⟩
  else ⟨200, "application/json", result⟩

/-- The uppercase level tag of a live-tail line. -/
def levelUpper : LogLevel → String
  | .info => "INFO"
  | .warn => "WARN"
  | .error => "ERROR"

/-- Modelled from the spec: the formatted line of one entry in the text
stream, `"[" + timestamp + "] " + UPPERCASE(level) + ": " + message + "\n"`.
The streaming `Logger` class is not among the sources. -/
def formatLogLine (e : Log) : String :=
  "[" ++ e.timestamp ++ "] " ++ levelUpper e.level ++ ": " ++ e.message ++ "\n"

/-- Modelled from the spec: the literal replay/live boundary line. -/
def liveLogsSeparator : String := "--- Live logs start here ---\n"

/-- A live-tail streaming response: its Content-Type and the sequence of
lines written to the connection over the session's lifetime. -/
structure StreamResponse where
  contentType : String
  lines : List String

/-- Modelled from the spec: one live-tail session of the Stream Coordinator,
which is not among the sources.  At session start the history
`getLogs({ to: sessionStart })` is replayed oldest-first, one formatted line
per entry, then the separator line is written, then every entry appended
while the connection stays open (`live`, in append order) is delivered as
one more line. -/
def streamSession (db : List Log) (sessionStart : String) (live : List Log) : StreamResponse :=
  let history := List.insertionSort tsAsc (getLogs db { to' := some sessionStart }).logs
  ⟨"text/plain", history.map formatLogLine ++ liveLogsSeparator :: live.map formatLogLine⟩
def natDigitsRef (n : Nat) : List Char :=
  if n < 10 then [digitChar n]
  else natDigitsRef (n / 10) ++ [digitChar (n % 10)]
termination_by n
decreasing_by exact Nat.div_lt_self (by omega) (by omega)

theorem natDigitsAux_spec : ∀ fuel n acc, n < fuel →
    natDigitsAux fuel n acc = natDigitsRef n ++ acc := by
  intro fuel
  induction fuel with
  | zero => intro n acc h; omega
  | succ f ih =>
    intro n acc h
    by_cases h10 : n < 10
    · rw [natDigitsAux, if_pos h10, natDigitsRef, if_pos h10]; rfl
    · rw [natDigitsAux, if_neg h10, natDigitsRef, if_neg h10]
      rw [ih (n / 10) _ (by omega), List.append_assoc]
      rfl

theorem natDigits_eq_ref (n : Nat) : natDigits n = natDigitsRef n := by
  rw [natDigits, natDigitsAux_spec (n + 1) n [] (by omega), List.append_nil]

theorem digitChar_decode : ∀ d, d < 10 →
    isDig (digitChar d) = true ∧ (digitChar d).toNat - 48 = d ∧ (digitChar d).toNat = 48 + d := by
  intro d hd
  interval_cases d <;> exact ⟨by decide, by decide, by decide⟩

theorem natDigitsRef_ne_nil (n : Nat) : natDigitsRef n ≠ [] := by
  rw [natDigitsRef]
  by_cases h : n < 10
  · simp [h]
  · simp [h]

theorem natDigitsRef_digits (n : Nat) : ∀ c ∈ natDigitsRef n, isDig c = true := by
  induction n using Nat.strong_induction_on with
  | _ n ih =>
    rw [natDigitsRef]
    by_cases h : n < 10
    · simp only [if_pos h, List.mem_singleton]
      rintro c rfl
      exact (digitChar_decode n h).1
    · simp only [if_neg h, List.mem_append, List.mem_singleton]
      rintro c (hc | rfl)
      · exact ih (n / 10) (Nat.div_lt_self (by omega) (by omega)) c hc
      · exact (digitChar_decode (n % 10) (Nat.mod_lt _ (by omega))).1

def digitsFold (acc : Nat) (ds : List Char) : Nat :=
  ds.foldl (fun a c => 10 * a + (c.toNat - 48)) acc

theorem digitsFold_ref (n : Nat) : ∀ acc,
    digitsFold acc (natDigitsRef n) = acc * 10 ^ (natDigitsRef n).length + n := by
  induction n using Nat.strong_induction_on with
  | _ n ih =>
    intro acc
    rw [natDigitsRef]
    by_cases h : n < 10
    · simp only [if_pos h, digitsFold, List.foldl_cons, List.foldl_nil, List.length_singleton]
      rw [(digitChar_decode n h).2.1]
      ring
    · simp only [if_neg h, digitsFold, List.foldl_append, List.foldl_cons, List.foldl_nil,
        List.length_append, List.length_singleton]
      have h1 := ih (n / 10) (Nat.div_lt_self (by omega) (by omega)) acc
      simp only [digitsFold] at h1
      rw [h1, (digitChar_decode (n % 10) (Nat.mod_lt _ (by omega))).2.1]
      rw [pow_succ]
      have := Nat.div_add_mod n 10
      ring_nf
      omega

def parseNatAux : Nat → List Char → Nat × List Char
  | acc, [] => (acc, [])
  | acc, c :: cs => if isDig c then parseNatAux (10 * acc + (c.toNat - 48)) cs else (acc, c :: cs)

def parseNum : List Char → Option (Int × List Char)
  | [] => none
  | c :: cs =>
    if c = '-' then
      match cs with
      | [] => none
      | d :: ds =>
        if isDig d then
          let p := parseNatAux 0 (d :: ds)
          some (-(p.1 : Int), p.2)
        else none
    else if isDig c then
      let p := parseNatAux 0 (c :: cs)
      some ((p.1 : Int), p.2)
    else none

def headNotDig : List Char → Prop
  | [] => True
  | c :: _ => isDig c = false

theorem parseNatAux_spec : ∀ ds rest acc, (∀ c ∈ ds, isDig c = true) → headNotDig rest →
    parseNatAux acc (ds ++ rest) = (digitsFold acc ds, rest) := by
  intro ds
  induction ds with
  | nil =>
    intro rest acc _ hrest
    cases rest with
    | nil => rfl
    | cons c cs =>
      simp only [List.nil_append, parseNatAux, digitsFold, List.foldl_nil]
      rw [if_neg]
      simp only [headNotDig] at hrest
      simp [hrest]
  | cons d ds ih =>
    intro rest acc hds hrest
    have hd : isDig d = true := hds d (List.mem_cons_self d ds)
    simp only [List.cons_append, parseNatAux, if_pos hd, List.append_eq]
    rw [ih rest _ (fun c hc => hds c (List.mem_cons_of_mem d hc)) hrest]
    rfl

theorem parseNum_intChars (n : Int) (rest : List Char) (hrest : headNotDig rest) :
    parseNum (intChars n ++ rest) = some (n, rest) := by
  cases n with
  | ofNat m =>
    simp only [intChars, natDigits_eq_ref]
    obtain ⟨c, cs, hcons⟩ : ∃ c cs, natDigitsRef m = c :: cs := by
      cases h : natDigitsRef m with
      | nil => exact absurd h (natDigitsRef_ne_nil m)
      | cons c cs => exact ⟨c, cs, rfl⟩
    rw [hcons]
    have hdig : isDig c = true := by
      have := natDigitsRef_digits m c (by rw [hcons]; exact List.mem_cons_self c cs)
      exact this
    have hnotminus : ¬(c = '-') := by
      intro h; subst h; simp [isDig] at hdig
    simp only [List.cons_append, parseNum, if_neg hnotminus, if_pos hdig]
    have := parseNatAux_spec (c :: cs) rest 0 (by rw [← hcons]; exact natDigitsRef_digits m) hrest
    rw [List.cons_append] at this
    rw [this]
    have hv := digitsFold_ref m 0
    rw [hcons] at hv
    simp only [Nat.zero_mul, Nat.zero_add] at hv
    simp [hv]
  | negSucc m =>
    simp only [intChars, natDigits_eq_ref]
    obtain ⟨c, cs, hcons⟩ : ∃ c cs, natDigitsRef (m + 1) = c :: cs := by
      cases h : natDigitsRef (m + 1) with
      | nil => exact absurd h (natDigitsRef_ne_nil _)
      | cons c cs => exact ⟨c, cs, rfl⟩
    rw [hcons]
    have hdig : isDig c = true :=
      natDigitsRef_digits (m + 1) c (by rw [hcons]; exact List.mem_cons_self c cs)
    simp only [List.cons_append, parseNum, if_pos rfl]
    simp only [if_pos hdig]
    have := parseNatAux_spec (c :: cs) rest 0 (by rw [← hcons]; exact natDigitsRef_digits (m + 1)) hrest
    rw [List.cons_append] at this
    rw [this]
    have hv := digitsFold_ref (m + 1) 0
    rw [hcons] at hv
    simp only [Nat.zero_mul, Nat.zero_add] at hv
    rw [hv]
    have hneg : -((m + 1 : Nat) : Int) = Int.negSucc m := by
      simp [Int.negSucc_eq]
    rw [hneg]
    simp

def hexVal (c : Char) : Option Nat :=
  if 48 ≤ c.toNat ∧ c.toNat ≤ 57 then some (c.toNat - 48)
  else if 97 ≤ c.toNat ∧ c.toNat ≤ 102 then some (c.toNat - 87)
  else if 65 ≤ c.toNat ∧ c.toNat ≤ 70 then some (c.toNat - 55)
  else none

theorem hexVal_hexDig : ∀ n, n < 16 → hexVal (hexDig n) = some n := by
  intro n hn
  interval_cases n <;> decide

def parseStrAux : List Char → Option (List Char × List Char)
  | [] => none
  | c :: rest =>
    if c = '"' then some ([], rest)
    else if c = '\\' then
      match rest with
      | [] => none
      | e :: rest' =>
        if e = '"' then (parseStrAux rest').map (fun p => ('"' :: p.1, p.2))
        else if e = '\\' then (parseStrAux rest').map (fun p => ('\\' :: p.1, p.2))
        else if e = '/' then (parseStrAux rest').map (fun p => ('/' :: p.1, p.2))
        else if e = 'b' then (parseStrAux rest').map (fun p => (Char.ofNat 8 :: p.1, p.2))
        else if e = 'f' then (parseStrAux rest').map (fun p => (Char.ofNat 12 :: p.1, p.2))
        else if e = 'n' then (parseStrAux rest').map (fun p => ('\n' :: p.1, p.2))
        else if e = 'r' then (parseStrAux rest').map (fun p => (Char.ofNat 13 :: p.1, p.2))
        else if e = 't' then (parseStrAux rest').map (fun p => ('\t' :: p.1, p.2))
        else if e = 'u' then
          match rest' with
          | h1 :: h2 :: h3 :: h4 :: rest2 =>
            match hexVal h1, hexVal h2, hexVal h3, hexVal h4 with
            | some a, some b, some c2, some d =>
              (parseStrAux rest2).map
                (fun p => (Char.ofNat (((a * 16 + b) * 16 + c2) * 16 + d) :: p.1, p.2))
            | _, _, _, _ => none
          | _ => none
        else none
    else (parseStrAux rest).map (fun p => (c :: p.1, p.2))

theorem parseStrAux_quote (rest : List Char) : parseStrAux ('"' :: rest) = some ([], rest) := by
  rw [parseStrAux.eq_def]
  simp

theorem parseStrAux_cons (c : Char) (tail : List Char) :
    parseStrAux (escChar c ++ tail) = (parseStrAux tail).map (fun p => (c :: p.1, p.2)) := by
  by_cases h1 : c = '"'
  · subst h1
    simp only [escChar, reduceIte, List.cons_append, List.nil_append]
    rw [parseStrAux.eq_def]
    simp
  · by_cases h2 : c = '\\'
    · subst h2
      simp only [escChar, reduceIte, List.cons_append, List.nil_append]
      rw [parseStrAux.eq_def]
      simp
    · by_cases h3 : c.toNat = 8
      · simp only [escChar, if_neg h1, if_neg h2, h3, reduceIte, List.cons_append, List.nil_append]
        rw [parseStrAux.eq_def]
        have hc : Char.ofNat 8 = c := by rw [← h3, Char.ofNat_toNat]
        simp [hc]
        rw [hc]
      · by_cases h4 : c.toNat = 9
        · simp only [escChar, if_neg h1, if_neg h2, h3, h4, reduceIte, List.cons_append,
            List.nil_append]
          rw [parseStrAux.eq_def]
          have hc : '\t' = c := by
            have : Char.ofNat 9 = c := by rw [← h4, Char.ofNat_toNat]
            exact this
          simp [← hc]
        · by_cases h5 : c.toNat = 10
          · simp only [escChar, if_neg h1, if_neg h2, h3, h4, h5, reduceIte, List.cons_append,
              List.nil_append]
            rw [parseStrAux.eq_def]
            have hc : '\n' = c := by
              have : Char.ofNat 10 = c := by rw [← h5, Char.ofNat_toNat]
              exact this
            simp [← hc]
          · by_cases h6 : c.toNat = 12
            · simp only [escChar, if_neg h1, if_neg h2, h3, h4, h5, h6, reduceIte,
                List.cons_append, List.nil_append]
              rw [parseStrAux.eq_def]
              have hc : Char.ofNat 12 = c := by rw [← h6, Char.ofNat_toNat]
              simp [hc]
              rw [hc]
            · by_cases h7 : c.toNat = 13
              · simp only [escChar, if_neg h1, if_neg h2, h3, h4, h5, h6, h7, reduceIte,
                  List.cons_append, List.nil_append]
                rw [parseStrAux.eq_def]
                have hc : Char.ofNat 13 = c := by rw [← h7, Char.ofNat_toNat]
                simp [hc]
                rw [hc]
              · by_cases h8 : c.toNat < 32
                · simp only [escChar, if_neg h1, if_neg h2, h3, h4, h5, h6, h7, reduceIte,
                    if_pos h8, List.cons_append, List.nil_append]
                  rw [parseStrAux.eq_def]
                  have hhi : hexVal (hexDig (c.toNat / 16)) = some (c.toNat / 16) :=
                    hexVal_hexDig _ (by omega)
                  have hlo : hexVal (hexDig (c.toNat % 16)) = some (c.toNat % 16) :=
                    hexVal_hexDig _ (by omega)
                  have hv0 : hexVal '0' = some 0 := by decide
                  simp [hv0, hhi, hlo]
                  have hval : c.toNat / 16 * 16 + c.toNat % 16 = c.toNat := by omega
                  rw [hval, Char.ofNat_toNat]
                · have hne : escChar c = [c] := by
                    simp [escChar, h1, h2, h3, h4, h5, h6, h7, h8]
                  rw [hne]
                  rw [List.cons_append, parseStrAux.eq_def]
                  simp [h1, h2]

theorem parseStrAux_escChars : ∀ (s rest : List Char),
    parseStrAux (escChars s ++ '"' :: rest) = some (s, rest) := by
  intro s
  induction s with
  | nil =>
    intro rest
    simp only [escChars, List.nil_append]
    exact parseStrAux_quote rest
  | cons c cs ih =>
    intro rest
    simp only [escChars, List.append_assoc]
    rw [parseStrAux_cons c (escChars cs ++ '"' :: rest), ih rest]
    rfl

mutual
def jsize : JsonValue → Nat
  | .jnull => 1
  | .jbool _ => 1
  | .jnum _ => 1
  | .jstr _ => 1
  | .jarr xs => 1 + jsizeElems xs
  | .jobj kvs => 1 + jsizeFields kvs

def jsizeElems : List JsonValue → Nat
  | [] => 0
  | x :: xs => jsize x + 1 + jsizeElems xs

def jsizeFields : List (String × JsonValue) → Nat
  | [] => 0
  | (_, v) :: kvs => jsize v + 1 + jsizeFields kvs
end

mutual
def parseValue : Nat → List Char → Option (JsonValue × List Char)
  | 0, _ => none
  | fuel + 1, cs =>
    match cs with
    | [] => none
    | c :: rest =>
    if c = 'n' then
      match rest with
      | 'u' :: 'l' :: 'l' :: r => some (.jnull, r)
      | _ => none
    else if c = 't' then
      match rest with
      | 'r' :: 'u' :: 'e' :: r => some (.jbool true, r)
      | _ => none
    else if c = 'f' then
      match rest with
      | 'a' :: 'l' :: 's' :: 'e' :: r => some (.jbool false, r)
      | _ => none
    else if c = '"' then
      (parseStrAux rest).map (fun p => (.jstr (String.mk p.1), p.2))
    else if c = '[' then
      match rest with
      | [] => none
      | d :: rest' =>
        if d = ']' then some (.jarr [], rest')
        else (parseElems fuel (d :: rest')).map (fun p => (.jarr p.1, p.2))
    else if c = '\x7b' then
      match rest with
      | [] => none
      | d :: rest' =>
        if d = '\x7d' then some (.jobj [], rest')
        else (parseFields fuel (d :: rest')).map (fun p => (.jobj p.1, p.2))
    else
      (parseNum (c :: rest)).map (fun p => (.jnum p.1, p.2))

def parseElems : Nat → List Char → Option (List JsonValue × List Char)
  | 0, _ => none
  | fuel + 1, cs =>
    match parseValue fuel cs with
    | none => none
    | some (v, rest) =>
      match rest with
      | [] => none
      | c :: rest' =>
        if c = ',' then (parseElems fuel rest').map (fun p => (v :: p.1, p.2))
        else if c = ']' then some ([v], rest')
        else none

def parseFields : Nat → List Char → Option (List (String × JsonValue) × List Char)
  | 0, _ => none
  | fuel + 1, cs =>
    match cs with
    | [] => none
    | c :: rest =>
      if c = '"' then
        match parseStrAux rest with
        | none => none
        | some (k, rest1) =>
          match rest1 with
          | [] => none
          | c2 :: rest2 =>
            if c2 = ':' then
              match parseValue fuel rest2 with
              | none => none
              | some (v, rest3) =>
                match rest3 with
                | [] => none
                | c3 :: rest4 =>
                  if c3 = ',' then
                    (parseFields fuel rest4).map (fun p => ((String.mk k, v) :: p.1, p.2))
                  else if c3 = '\x7d' then some ([(String.mk k, v)], rest4)
                  else none
            else none
      else none
end

theorem parseValue_succ (fuel : Nat) (cs : List Char) :
    parseValue (fuel + 1) cs =
      (match cs with
      | [] => none
      | c :: rest =>
        if c = 'n' then
          match rest with
          | 'u' :: 'l' :: 'l' :: r => some (.jnull, r)
          | _ => none
        else if c = 't' then
          match rest with
          | 'r' :: 'u' :: 'e' :: r => some (.jbool true, r)
          | _ => none
        else if c = 'f' then
          match rest with
          | 'a' :: 'l' :: 's' :: 'e' :: r => some (.jbool false, r)
          | _ => none
        else if c = '"' then
          (parseStrAux rest).map (fun p => (.jstr (String.mk p.1), p.2))
        else if c = '[' then
          match rest with
          | [] => none
          | d :: rest' =>
            if d = ']' then some (.jarr [], rest')
            else (parseElems fuel (d :: rest')).map (fun p => (JsonValue.jarr p.1, p.2))
        else if c = '\x7b' then
          match rest with
          | [] => none
          | d :: rest' =>
            if d = '\x7d' then some (.jobj [], rest')
            else (parseFields fuel (d :: rest')).map (fun p => (JsonValue.jobj p.1, p.2))
        else
          (parseNum (c :: rest)).map (fun p => (JsonValue.jnum p.1, p.2))) := rfl

theorem parseElems_succ (fuel : Nat) (cs : List Char) :
    parseElems (fuel + 1) cs =
      (match parseValue fuel cs with
      | none => none
      | some (v, rest) =>
        match rest with
        | [] => none
        | c :: rest' =>
          if c = ',' then (parseElems fuel rest').map (fun p => (v :: p.1, p.2))
          else if c = ']' then some ([v], rest')
          else none) := rfl

theorem parseFields_succ (fuel : Nat) (cs : List Char) :
    parseFields (fuel + 1) cs =
      (match cs with
      | [] => none
      | c :: rest =>
        if c = '"' then
          match parseStrAux rest with
          | none => none
          | some (k, rest1) =>
            match rest1 with
            | [] => none
            | c2 :: rest2 =>
              if c2 = ':' then
                match parseValue fuel rest2 with
                | none => none
                | some (v, rest3) =>
                  match rest3 with
                  | [] => none
                  | c3 :: rest4 =>
                    if c3 = ',' then
                      (parseFields fuel rest4).map (fun p => ((String.mk k, v) :: p.1, p.2))
                    else if c3 = '\x7d' then some ([(String.mk k, v)], rest4)
                    else none
              else none
        else none) := rfl

theorem stringMk_toList (s : String) : String.mk s.toList = s := by
  cases s
  rfl

def headOk : List Char → Prop
  | [] => True
  | c :: _ => c = ',' ∨ c = ']' ∨ c = '\x7d'

theorem headOk_notDig : ∀ rest, headOk rest → headNotDig rest := by
  intro rest h
  cases rest with
  | nil => trivial
  | cons c cs =>
    rcases h with h | h | h <;> subst h <;> (show isDig _ = false; decide)

theorem numHead_ne (c : Char) (h : isDig c = true ∨ c = '-') :
    c ≠ 'n' ∧ c ≠ 't' ∧ c ≠ 'f' ∧ c ≠ '"' ∧ c ≠ '[' ∧ c ≠ '\x7b' ∧ c ≠ ']' := by
  rcases h with h | h
  · refine ⟨?_, ?_, ?_, ?_, ?_, ?_, ?_⟩ <;> (intro he; subst he; simp [isDig] at h)
  · subst h; exact ⟨by decide, by decide, by decide, by decide, by decide, by decide, by decide⟩

theorem intChars_head (n : Int) :
    ∃ c cs, intChars n = c :: cs ∧ (isDig c = true ∨ c = '-') := by
  cases n with
  | ofNat m =>
    simp only [intChars, natDigits_eq_ref]
    obtain ⟨c, cs, hc⟩ : ∃ c cs, natDigitsRef m = c :: cs := by
      cases h : natDigitsRef m with
      | nil => exact absurd h (natDigitsRef_ne_nil m)
      | cons c cs => exact ⟨c, cs, rfl⟩
    exact ⟨c, cs, hc, Or.inl (natDigitsRef_digits m c (by rw [hc]; exact List.mem_cons_self c cs))⟩
  | negSucc m => exact ⟨'-', natDigits (m + 1), rfl, Or.inr rfl⟩

theorem renderJson_head (v : JsonValue) :
    ∃ c cs, renderJson v = c :: cs ∧ c ≠ ']' := by
  cases v with
  | jnull => exact ⟨'n', _, rfl, by decide⟩
  | jbool b =>
    cases b with
    | false => exact ⟨'f', _, rfl, by decide⟩
    | true => exact ⟨'t', _, rfl, by decide⟩
  | jnum n =>
    obtain ⟨c, cs, hc, hd⟩ := intChars_head n
    exact ⟨c, cs, by simp [renderJson, hc], (numHead_ne c hd).2.2.2.2.2.2⟩
  | jstr s => exact ⟨'"', _, rfl, by decide⟩
  | jarr xs => exact ⟨'[', _, rfl, by decide⟩
  | jobj kvs => exact ⟨'\x7b', _, rfl, by decide⟩

theorem renderElems_cons_ex (x : JsonValue) (xs : List JsonValue) :
    ∃ t, renderElems (x :: xs) = renderJson x ++ t := by
  cases xs with
  | nil => exact ⟨[], by simp [renderElems]⟩
  | cons y ys => exact ⟨',' :: renderElems (y :: ys), rfl⟩

theorem jsize_pos : ∀ v : JsonValue, 1 ≤ jsize v := by
  intro v
  cases v <;> simp [jsize]

theorem parse_render_fuel : ∀ fuel : Nat,
    (∀ v rest, jsize v ≤ fuel → headOk rest →
      parseValue fuel (renderJson v ++ rest) = some (v, rest)) ∧
    (∀ vs rest, vs ≠ [] → jsizeElems vs ≤ fuel →
      parseElems fuel (renderElems vs ++ ']' :: rest) = some (vs, rest)) ∧
    (∀ kvs rest, kvs ≠ [] → jsizeFields kvs ≤ fuel →
      parseFields fuel (renderFields kvs ++ '\x7d' :: rest) = some (kvs, rest)) := by
  intro fuel
  induction fuel with
  | zero =>
    refine ⟨?_, ?_, ?_⟩
    · intro v rest hs _
      have := jsize_pos v
      omega
    · intro vs rest hne hs
      cases vs with
      | nil => exact absurd rfl hne
      | cons x xs => simp [jsizeElems] at hs
    · intro kvs rest hne hs
      cases kvs with
      | nil => exact absurd rfl hne
      | cons kv kvs =>
        obtain ⟨k, v⟩ := kv
        simp [jsizeFields] at hs
  | succ fuel ih =>
    obtain ⟨ih1, ih2, ih3⟩ := ih
    refine ⟨?_, ?_, ?_⟩
    · intro v rest hs hrest
      cases v with
      | jnull => simp [renderJson, parseValue]
      | jbool b => cases b <;> simp [renderJson, parseValue]
      | jnum n =>
        obtain ⟨c, cs, hc, hd⟩ := intChars_head n
        obtain ⟨hn, ht, hf, hq, hbr, hob, _⟩ := numHead_ne c hd
        simp only [renderJson, hc, List.cons_append]
        rw [parseValue_succ]
        simp only [if_neg hn, if_neg ht, if_neg hf, if_neg hq, if_neg hbr, if_neg hob]
        rw [show c :: (cs ++ rest) = (c :: cs) ++ rest from rfl, ← hc,
          parseNum_intChars n rest (headOk_notDig rest hrest)]
        rfl
      | jstr s =>
        simp only [renderJson, quoteChars, List.cons_append, List.append_assoc,
          List.singleton_append, List.nil_append]
        rw [parseValue_succ]
        simp only [Char.reduceEq, reduceIte]
        rw [parseStrAux_escChars]
        simp [stringMk_toList]
      | jarr xs =>
        cases xs with
        | nil => simp [renderJson, renderElems, parseValue]
        | cons x xs' =>
          obtain ⟨c, cs, hcx, hcne⟩ := renderJson_head x
          obtain ⟨t, ht⟩ := renderElems_cons_ex x xs'
          have hexp : renderElems (x :: xs') ++ ']' :: rest = c :: (cs ++ (t ++ ']' :: rest)) := by
            rw [ht, hcx]
            simp [List.append_assoc]
          simp only [renderJson, List.cons_append, List.append_assoc, List.singleton_append,
            List.nil_append]
          rw [parseValue_succ]
          simp only [Char.reduceEq, reduceIte]
          rw [hexp]
          simp only [if_neg hcne]
          rw [← hexp]
          rw [ih2 (x :: xs') rest (by simp) (by simp [jsize] at hs; omega)]
          rfl
      | jobj kvs =>
        cases kvs with
        | nil => simp [renderJson, renderFields, parseValue]
        | cons kv kvs' =>
          obtain ⟨k, v⟩ := kv
          have hexp : ∃ u, renderFields ((k, v) :: kvs') = '"' :: u := by
            cases kvs' with
            | nil =>
              exact ⟨escChars k.toList ++ '"' :: ':' :: renderJson v,
                by simp [renderFields, quoteChars]⟩
            | cons kv2 kvs2 =>
              exact ⟨escChars k.toList ++ '"' :: ':' ::
                  (renderJson v ++ ',' :: renderFields (kv2 :: kvs2)),
                by simp [renderFields, quoteChars]⟩
          obtain ⟨u, hu⟩ := hexp
          have hexp2 : renderFields ((k, v) :: kvs') ++ '\x7d' :: rest
              = '"' :: (u ++ '\x7d' :: rest) := by
            rw [hu]; rfl
          simp only [renderJson, List.cons_append, List.append_assoc, List.singleton_append,
            List.nil_append]
          rw [parseValue_succ]
          simp only [Char.reduceEq, reduceIte]
          rw [hexp2]
          simp only [Char.reduceEq, reduceIte]
          rw [← hexp2]
          rw [ih3 ((k, v) :: kvs') rest (by simp) (by simp [jsize] at hs; omega)]
          rfl
    · intro vs rest hne hs
      cases vs with
      | nil => exact absurd rfl hne
      | cons x xs =>
        simp only [jsizeElems] at hs
        cases xs with
        | nil =>
          simp only [renderElems]
          rw [parseElems_succ]
          rw [ih1 x (']' :: rest) (by omega) (Or.inr (Or.inl rfl))]
          simp
        | cons y ys =>
          simp only [renderElems, List.cons_append, List.append_assoc, List.nil_append]
          rw [parseElems_succ]
          rw [ih1 x (',' :: (renderElems (y :: ys) ++ ']' :: rest)) (by omega) (Or.inl rfl)]
          simp only [Char.reduceEq, reduceIte]
          rw [ih2 (y :: ys) rest (by simp) (by simp [jsizeElems] at hs ⊢; omega)]
          rfl
    · intro kvs rest hne hs
      cases kvs with
      | nil => exact absurd rfl hne
      | cons kv kvs'
        =>
        obtain ⟨k, v⟩ := kv
        simp only [jsizeFields] at hs
        cases kvs' with
        | nil =>
          simp only [renderFields, quoteChars, List.cons_append, List.append_assoc,
            List.singleton_append, List.nil_append]
          rw [parseFields_succ]
          simp only [Char.reduceEq, reduceIte]
          rw [parseStrAux_escChars]
          simp only [Char.reduceEq, reduceIte]
          rw [ih1 v ('\x7d' :: rest) (by omega) (Or.inr (Or.inr rfl))]
          simp [stringMk_toList]
        | cons kv2 kvs2 =>
          obtain ⟨k2, v2⟩ := kv2
          simp only [renderFields, quoteChars, List.cons_append, List.append_assoc,
            List.singleton_append, List.nil_append]
          rw [parseFields_succ]
          simp only [Char.reduceEq, reduceIte]
          rw [parseStrAux_escChars]
          simp only [Char.reduceEq, reduceIte]
          rw [ih1 v (',' :: (renderFields ((k2, v2) :: kvs2) ++ '\x7d' :: rest)) (by omega)
            (Or.inl rfl)]
          simp only [Char.reduceEq, reduceIte]
          rw [ih3 ((k2, v2) :: kvs2) rest (by simp) (by simp [jsizeFields] at hs ⊢; omega)]
          simp [stringMk_toList]

mutual
def jsize_le_renderLen : (v : JsonValue) → jsize v ≤ (renderJson v).length
  | .jnull => by simp [jsize, renderJson]
  | .jbool b => by cases b <;> simp [jsize, renderJson]
  | .jnum n => by
    cases n with
    | ofNat m =>
      have h : natDigitsRef m ≠ [] := natDigitsRef_ne_nil m
      have : 1 ≤ (natDigitsRef m).length := List.length_pos.mpr h
      simp only [jsize, renderJson, intChars, natDigits_eq_ref]
      omega
    | negSucc m => simp [jsize, renderJson, intChars]
  | .jstr s => by simp [jsize, renderJson, quoteChars]
  | .jarr xs => by
    have h := jsizeElems_le_renderLen xs
    simp only [jsize, renderJson, List.length_cons, List.length_append,
      List.length_singleton]
    omega
  | .jobj kvs => by
    have h := jsizeFields_le_renderLen kvs
    simp only [jsize, renderJson, List.length_cons, List.length_append,
      List.length_singleton]
    omega

def jsizeElems_le_renderLen : (vs : List JsonValue) → jsizeElems vs ≤ (renderElems vs).length + 1
  | [] => by simp [jsizeElems, renderElems]
  | [x] => by
    have h := jsize_le_renderLen x
    simp only [jsizeElems, renderElems]
    omega
  | x :: y :: ys => by
    have h1 := jsize_le_renderLen x
    have h2 := jsizeElems_le_renderLen (y :: ys)
    have e1 : jsizeElems (x :: y :: ys) = jsize x + 1 + jsizeElems (y :: ys) := rfl
    have e2 : renderElems (x :: y :: ys) = renderJson x ++ ',' :: renderElems (y :: ys) := rfl
    rw [e1, e2]
    simp only [List.length_append, List.length_cons]
    omega

def jsizeFields_le_renderLen :
    (kvs : List (String × JsonValue)) → jsizeFields kvs ≤ (renderFields kvs).length + 1
  | [] => by simp [jsizeFields, renderFields]
  | [(k, v)] => by
    have h := jsize_le_renderLen v
    simp only [jsizeFields, renderFields, List.length_append, List.length_cons]
    omega
  | (k, v) :: kv :: kvs => by
    have h1 := jsize_le_renderLen v
    have h2 := jsizeFields_le_renderLen (kv :: kvs)
    have e1 : jsizeFields ((k, v) :: kv :: kvs)
        = jsize v + 1 + jsizeFields (kv :: kvs) := rfl
    have e2 : renderFields ((k, v) :: kv :: kvs)
        = quoteChars k ++ ':' :: renderJson v ++ ',' :: renderFields (kv :: kvs) := rfl
    rw [e1, e2]
    simp only [List.length_append, List.length_cons]
    omega
end

def jsonParse (s : String) : Option JsonValue :=
  match parseValue (s.toList.length + 1) s.toList with
  | some (v, []) => some v
  | _ => none

theorem jsonParse_stringify (v : JsonValue) : jsonParse (jsonStringify v) = some v := by
  have hlist : (jsonStringify v).toList = renderJson v := rfl
  rw [jsonParse, hlist]
  have h := (parse_render_fuel ((renderJson v).length + 1)).1 v []
    (by have := jsize_le_renderLen v; omega) trivial
  rw [List.append_nil] at h
  rw [h]

theorem getLogs_total (db : List Log) (f : LogFilter) :
    (getLogs db f).total = (db.filter (matchesFilter f)).length := by
  unfold getLogs
  cases effLimit f with
  | none => rfl
  | some n => cases effOffset f with
    | none => rfl
    | some m => rfl

theorem getLogs_logs_eq (db : List Log) (f : LogFilter) :
    (getLogs db f).logs =
      (let ordered := List.insertionSort tsDesc (db.filter (matchesFilter f))
      match effLimit f with
      | none => ordered
      | some n =>
        let page :=
          match effOffset f with
          | none => ordered
          | some m => ordered.drop m.toNat
        if n < 0 then page else page.take n.toNat) := rfl

theorem getLogs_logs_length (db : List Log) (f : LogFilter) :
    (getLogs db f).logs.length =
      (match effLimit f with
      | none => (getLogs db f).total
      | some n =>
        let off : Nat := match effOffset f with | none => 0 | some m => m.toNat
        if n < 0 then (getLogs db f).total - off
        else min n.toNat ((getLogs db f).total - off)) := by
  have hlen : (List.insertionSort tsDesc (db.filter (matchesFilter f))).length
      = (getLogs db f).total := by
    rw [getLogs_total]
    exact (List.perm_insertionSort tsDesc (db.filter (matchesFilter f))).length_eq
  rw [getLogs_logs_eq]
  cases hL : effLimit f with
  | none => simpa using hlen
  | some n =>
    cases hO : effOffset f with
    | none =>
      by_cases hn : n < 0
      · simp only [if_pos hn, hlen, Nat.sub_zero]
      · simp only [if_neg hn, List.length_take, hlen, Nat.sub_zero]
    | some m =>
      by_cases hn : n < 0
      · simp only [if_pos hn, List.length_drop, hlen]
      · simp only [if_neg hn, List.length_take, List.length_drop, hlen]

theorem getLogs_logs_sublist (db : List Log) (f : LogFilter) :
    ((getLogs db f).logs).Sublist
      (List.insertionSort tsDesc (db.filter (matchesFilter f))) := by
  rw [getLogs_logs_eq]
  cases effLimit f with
  | none => exact List.Sublist.refl _
  | some n =>
    cases effOffset f with
    | none =>
      by_cases hn : n < 0
      · simp only [if_pos hn]; exact List.Sublist.refl _
      · simp only [if_neg hn]; exact List.take_sublist _ _
    | some m =>
      by_cases hn : n < 0
      · simp only [if_pos hn]; exact List.drop_sublist _ _
      · simp only [if_neg hn]; exact (List.take_sublist _ _).trans (List.drop_sublist _ _)

theorem mem_getLogs_imp (db : List Log) (f : LogFilter) (e : Log)
    (h : e ∈ (getLogs db f).logs) : e ∈ db ∧ matchesFilter f e = true := by
  have h2 := (getLogs_logs_sublist db f).subset h
  have h3 := (List.perm_insertionSort tsDesc (db.filter (matchesFilter f))).mem_iff.mp h2
  exact ⟨(List.mem_filter.mp h3).1, (List.mem_filter.mp h3).2⟩

theorem mem_getLogs_of_noLimit (db : List Log) (f : LogFilter) (e : Log)
    (hL : effLimit f = none) :
    e ∈ (getLogs db f).logs ↔ e ∈ db ∧ matchesFilter f e = true := by
  rw [getLogs_logs_eq, hL]
  rw [(List.perm_insertionSort tsDesc (db.filter (matchesFilter f))).mem_iff]
  simp [List.mem_filter]

theorem getLogs_sorted (db : List Log) (f : LogFilter) :
    List.Sorted tsDesc (getLogs db f).logs := by
  have hs : List.Sorted tsDesc (List.insertionSort tsDesc (db.filter (matchesFilter f))) :=
    List.sorted_insertionSort tsDesc (db.filter (matchesFilter f))
  rw [getLogs_logs_eq]
  cases effLimit f with
  | none => exact hs
  | some n =>
    cases effOffset f with
    | none =>
      by_cases hn : n < 0
      · simp only [if_pos hn]; exact hs
      · simp only [if_neg hn]
        exact List.Pairwise.sublist (List.take_sublist _ _) hs
    | some m =>
      by_cases hn : n < 0
      · simp only [if_pos hn]
        exact List.Pairwise.sublist (List.drop_sublist _ _) hs
      · simp only [if_neg hn]
        exact List.Pairwise.sublist
          ((List.take_sublist _ _).trans (List.drop_sublist _ _)) hs

theorem mem_cleanupOldLogs (db : List Log) (cutoffIso : String) (e : Log) :
    e ∈ cleanupOldLogs db cutoffIso ↔
      e ∈ db ∧ lexLe cutoffIso.toList e.timestamp.toList = true := by
  unfold cleanupOldLogs lexLt
  rw [List.mem_filter]
  simp

theorem matchesFilter_eq_true_iff (f : LogFilter) (e : Log) :
    matchesFilter f e = true ↔
      (match f.level with | none => True | some l => e.level = l) ∧
      (match f.search with
       | none => True
       | some s => s = "" ∨ sqliteLike ("%" ++ s ++ "%") e.message = true) ∧
      (match f.from' with
       | none => True
       | some s => s = "" ∨ lexLe s.toList e.timestamp.toList = true) ∧
      (match f.to' with
       | none => True
       | some s => s = "" ∨ lexLe e.timestamp.toList s.toList = true) := by
  cases hl : f.level <;> cases hs : f.search <;> cases hf : f.from' <;> cases ht : f.to' <;>
    simp [matchesFilter, hl, hs, hf, ht, Bool.and_eq_true, Bool.or_eq_true,
      decide_eq_true_iff, or_comm, and_assoc]

theorem formatLogLine_ne_sep (e : Log) : formatLogLine e ≠ liveLogsSeparator := by
  intro h
  have hd := congrArg String.data h
  simp only [formatLogLine, liveLogsSeparator, String.data_append] at hd
  simp at hd

theorem count_sep_formatted (H L : List Log) :
    List.count liveLogsSeparator
      (H.map formatLogLine ++ liveLogsSeparator :: L.map formatLogLine) = 1 := by
  rw [List.count_append]
  have hH : List.count liveLogsSeparator (H.map formatLogLine) = 0 := by
    rw [List.count_eq_zero]
    intro hmem
    obtain ⟨e, _, he⟩ := List.mem_map.mp hmem
    exact formatLogLine_ne_sep e he
  have hL : List.count liveLogsSeparator (L.map formatLogLine) = 0 := by
    rw [List.count_eq_zero]
    intro hmem
    obtain ⟨e, _, he⟩ := List.mem_map.mp hmem
    exact formatLogLine_ne_sep e he
  rw [hH, List.count_cons_self, hL]

theorem getLogsResult_ext (r s : GetLogsResult) (h1 : r.logs = s.logs)
    (h2 : r.total = s.total) : r = s := by
  cases r; cases s; simp_all

theorem getLogs_ignore_offset (db : List Log) (f : LogFilter) (o : Option JsNum)
    (h : effLimit f = none) :
    getLogs db { f with offset := o } = getLogs db f := by
  have hL : effLimit { f with offset := o } = none := h
  apply getLogsResult_ext
  · rw [getLogs_logs_eq, getLogs_logs_eq, hL, h]
    rfl
  · rw [getLogs_total, getLogs_total]
    rfl

/-- C1: the claim as written fails when `offset` exceeds `total`: SQL clamps
the page at zero rows while `min(total - offset, limit)` goes negative.
With one stored row and `limit=10`, `offset=5`, `getLogs` returns `0` rows,
not `min(1 - 5, 10) = -4`. -/
theorem C1_counterexample :
    (getLogs [⟨1, "t1", .info, "a"⟩]
        { limit := some (.int 10), offset := some (.int 5) }).total = 1 ∧
    ((getLogs [⟨1, "t1", .info, "a"⟩]
        { limit := some (.int 10), offset := some (.int 5) }).logs.length : Int) ≠
      min (((getLogs [⟨1, "t1", .info, "a"⟩]
        { limit := some (.int 10), offset := some (.int 5) }).total : Int) - 5) 10 := by
  decide

/-- C1 (amended): `total` always equals the number of stored entries matching
the filter's predicate, ignoring `limit` and `offset`; the number of returned
logs is `total` when no truthy limit is given (offset is then ignored), and
otherwise `min(limit, max(total - offset, 0))` with `offset` defaulting to
`0` and a negative limit meaning "no limit" (SQLite semantics); the
subtraction is the truncated one, so the page is empty when `offset ≥ total`. -/
theorem C1_total_and_length (db : List Log) (f : LogFilter) :
    (getLogs db f).total = (db.filter (matchesFilter f)).length ∧
    (getLogs db f).logs.length =
      (match effLimit f with
      | none => (getLogs db f).total
      | some n =>
        let off : Nat := match effOffset f with | none => 0 | some m => m.toNat
        if n < 0 then (getLogs db f).total - off
        else min n.toNat ((getLogs db f).total - off)) :=
  ⟨getLogs_total db f, getLogs_logs_length db f⟩

/-- C4: the claim as written fails: the `search` filter is compiled to SQL
`LIKE '%…%'`, which is ASCII-case-insensitive, not a substring test.  With
one stored entry whose message is `"ABC"`, `getLogs {search := "abc"}` counts
the entry although `"abc"` is not a substring of `"ABC"`. -/
theorem C4_counterexample :
    (getLogs [⟨1, "t1", .info, "ABC"⟩] { search := some "abc" }).total = 1 ∧
    ¬ ("abc".toList <:+: "ABC".toList) := by
  decide

/-- C4 (amended): for every filter without a truthy limit, `getLogs` selects
a stored entry iff the conjunction of every present filter field holds, where
the `search` field means SQLite `LIKE '%search%'` (ASCII-case-insensitive,
`%`/`_` wildcards) rather than plain substring containment, `level` means
equality, and `from`/`to` compare timestamps as SQL strings; absent or empty
fields impose no constraint. -/
theorem C4_predicate_composition (db : List Log) (f : LogFilter) (e : Log)
    (hL : effLimit f = none) :
    e ∈ (getLogs db f).logs ↔
      e ∈ db ∧
      (match f.level with | none => True | some l => e.level = l) ∧
      (match f.search with
       | none => True
       | some s => s = "" ∨ sqliteLike ("%" ++ s ++ "%") e.message = true) ∧
      (match f.from' with
       | none => True
       | some s => s = "" ∨ lexLe s.toList e.timestamp.toList = true) ∧
      (match f.to' with
       | none => True
       | some s => s = "" ∨ lexLe e.timestamp.toList s.toList = true) := by
  rw [mem_getLogs_of_noLimit db f e hL, and_congr_right_iff]
  intro _
  exact matchesFilter_eq_true_iff f e

theorem C4_witness :
    (⟨2, "t2", .warn, "b"⟩ : Log) ∈
      (getLogs [⟨1, "t1", .info, "a"⟩, ⟨2, "t2", .warn, "b"⟩]
        { level := some .warn }).logs :=
  (C4_predicate_composition [⟨1, "t1", .info, "a"⟩, ⟨2, "t2", .warn, "b"⟩]
    { level := some .warn } ⟨2, "t2", .warn, "b"⟩ rfl).mpr (by decide)

/-- C6: `getLogs` honors `filter.offset` only when `filter.limit` is present:
when `limit` is absent the `OFFSET` clause is never added, so any `offset`
value leaves the result unchanged. -/
theorem C6_offset_only_with_limit (db : List Log) (f : LogFilter)
    (o : Option JsNum) (h : f.limit = none) :
    getLogs db { f with offset := o } = getLogs db f :=
  getLogs_ignore_offset db f o (by simp [effLimit, h])

theorem C6_witness :
    getLogs [⟨1, "t1", .info, "a"⟩, ⟨2, "t2", .info, "b"⟩]
        { offset := some (.int 1) } =
      getLogs [⟨1, "t1", .info, "a"⟩, ⟨2, "t2", .info, "b"⟩] {} :=
  C6_offset_only_with_limit [⟨1, "t1", .info, "a"⟩, ⟨2, "t2", .info, "b"⟩] {}
    (some (.int 1)) rfl

/-- C8: the claim as written fails: the order is not configurable and the
repository documents "Chronological Order … oldest-first" while `getLogs`
always emits `ORDER BY timestamp DESC`.  With two stored entries
(timestamps "a" then "b"), `getLogs {}` returns them newest-first, which is
not ascending. -/
theorem C8_counterexample :
    (getLogs [⟨1, "a", .info, "x"⟩, ⟨2, "b", .info, "y"⟩] {}).logs.map
        Log.timestamp = ["b", "a"] ∧
    ¬ List.Sorted tsAsc (getLogs [⟨1, "a", .info, "x"⟩, ⟨2, "b", .info, "y"⟩] {}).logs := by
  decide

/-- C8 (amended): `getLogs` always returns its logs sorted by timestamp in
one fixed direction, descending (newest-first, `ORDER BY timestamp DESC`);
no configuration option exists. -/
theorem C8_ordering_descending (db : List Log) (f : LogFilter) :
    List.Sorted tsDesc (getLogs db f).logs :=
  getLogs_sorted db f

/-- C9: stored entries are immutable: append rewrites nothing, it appends one
fully-built row at the end; a retention sweep only deletes whole rows
(the surviving table is a sublist of the old one, rows unchanged); and every
row `getLogs` returns is a row of the table as stored. -/
theorem C9_immutability (db : List Log) (nextId : Nat) (lvl : LogLevel)
    (ts : String) (m : LogPayload) (cutoff : String) (f : LogFilter) :
    addLogEntry db nextId lvl ts m = db ++ [⟨nextId, ts, lvl, payloadMessage m⟩] ∧
    (cleanupOldLogs db cutoff).Sublist db ∧
    (∀ e, e ∈ (getLogs db f).logs → e ∈ db) :=
  ⟨rfl, List.filter_sublist db, fun e he => (mem_getLogs_imp db f e he).1⟩

/-- C10: whenever `filter.limit` is falsy — absent, `0`, or `NaN` (as
produced by a non-numeric `limit` query parameter) — `getLogs` applies
neither `LIMIT` nor `OFFSET`: it returns every matching row (`logs.length =
total`), membership is exactly the filter predicate, and the `offset` field
has no effect at all. -/
theorem C10_falsy_limit_unpaginated (db : List Log) (f : LogFilter)
    (h : f.limit = none ∨ f.limit = some (.int 0) ∨ f.limit = some .nan) :
    (getLogs db f).logs.length = (getLogs db f).total ∧
    (∀ e, e ∈ (getLogs db f).logs ↔ e ∈ db ∧ matchesFilter f e = true) ∧
    (∀ o, getLogs db { f with offset := o } = getLogs db f) := by
  have hL : effLimit f = none := by
    rcases h with h | h | h <;> simp [effLimit, h]
  exact ⟨by rw [getLogs_logs_length, hL],
    fun e => mem_getLogs_of_noLimit db f e hL,
    fun o => getLogs_ignore_offset db f o hL⟩

theorem C10_witness :
    ((getLogs [⟨1, "t1", .info, "a"⟩, ⟨2, "t2", .info, "b"⟩]
        { limit := some .nan, offset := some (.int 7) }).logs.length =
      (getLogs [⟨1, "t1", .info, "a"⟩, ⟨2, "t2", .info, "b"⟩]
        { limit := some .nan, offset := some (.int 7) }).total) ∧
    (∀ e, e ∈ (getLogs [⟨1, "t1", .info, "a"⟩, ⟨2, "t2", .info, "b"⟩]
        { limit := some .nan, offset := some (.int 7) }).logs ↔
      e ∈ [⟨1, "t1", .info, "a"⟩, ⟨2, "t2", .info, "b"⟩] ∧
        matchesFilter { limit := some .nan, offset := some (.int 7) } e = true) ∧
    (∀ o, getLogs [⟨1, "t1", .info, "a"⟩, ⟨2, "t2", .info, "b"⟩]
        { limit := some .nan, offset := o } =
      getLogs [⟨1, "t1", .info, "a"⟩, ⟨2, "t2", .info, "b"⟩]
        { limit := some .nan, offset := some (.int 7) }) := by
  have h := C10_falsy_limit_unpaginated
    [⟨1, "t1", .info, "a"⟩, ⟨2, "t2", .info, "b"⟩]
    { limit := some .nan, offset := some (.int 7) } (Or.inr (Or.inr rfl))
  exact ⟨h.1, h.2.1, fun o => h.2.2 o⟩

/-- C3: the claim as written fails: `_addLogEntry` serializes a structured
message with plain `JSON.stringify(message)` — compact, with no indentation.
For the payload `jobj [("a", 1)]` the stored message is the compact
serialization, which differs from the indented (pretty-printed) one the
claim prescribes. -/
theorem C3_counterexample :
    log [] 1 "2024-01-01T00:00:00.000Z" (.obj (.jobj [("a", .jnum 1)])) =
      [⟨1, "2024-01-01T00:00:00.000Z", .info,
        jsonStringify (.jobj [("a", .jnum 1)])⟩] ∧
    jsonStringify (.jobj [("a", .jnum 1)]) ≠
      jsonStringifyIndented (.jobj [("a", .jnum 1)]) := by
  refine ⟨rfl, fun h => absurd (congrArg String.data h) ?_⟩
  decide

/-- C3 (amended): each of `log(m)` / `warn(m)` / `error(m)` inserts exactly
one new entry, of level info / warn / error respectively, with the wall-clock
ISO timestamp taken at the call, whose message is `m` verbatim when `m` is a
string and otherwise the compact (not indented) `JSON.stringify`
serialization of `m`; re-parsing that stored message recovers the original
structured value. -/
theorem C3_append_and_serialization (db : List Log) (nextId : Nat) (ts : String)
    (m : LogPayload) :
    log db nextId ts m = db ++ [⟨nextId, ts, .info, payloadMessage m⟩] ∧
    warn db nextId ts m = db ++ [⟨nextId, ts, .warn, payloadMessage m⟩] ∧
    error db nextId ts m = db ++ [⟨nextId, ts, .error, payloadMessage m⟩] ∧
    (∀ s, payloadMessage (.str s) = s) ∧
    (∀ v, payloadMessage (.obj v) = jsonStringify v) ∧
    (∀ v, jsonParse (jsonStringify v) = some v) :=
  ⟨rfl, rfl, rfl, fun _ => rfl, fun _ => rfl, jsonParse_stringify⟩

/-- C5: a retention sweep with cutoff `now - retentionHours` (as the ISO
string `_cleanupOldLogs` binds) deletes exactly the entries whose timestamp
is below the cutoff: an entry survives the sweep — and appears in
`getLogs {}` afterwards — iff it was stored and its timestamp is at least
the cutoff; no entry inside the window is removed. -/
theorem C5_retention_sweep (db : List Log) (cutoffIso : String) (e : Log) :
    (e ∈ cleanupOldLogs db cutoffIso ↔
      e ∈ db ∧ lexLe cutoffIso.toList e.timestamp.toList = true) ∧
    (e ∈ (getLogs (cleanupOldLogs db cutoffIso) {}).logs ↔
      e ∈ db ∧ lexLe cutoffIso.toList e.timestamp.toList = true) := by
  refine ⟨mem_cleanupOldLogs db cutoffIso e, ?_⟩
  have h1 := mem_getLogs_of_noLimit (cleanupOldLogs db cutoffIso) {} e rfl
  have h2 : matchesFilter {} e = true := rfl
  rw [h1, h2]
  simp [mem_cleanupOldLogs db cutoffIso e]

/-- C7: the claim as written fails on malformed `limit` values: a
non-numeric `limit` parameter parses to `NaN`, which is falsy, so `getLogs`
applies no `LIMIT` at all and returns every matching row instead of the
default page of 100.  With 101 stored entries and `limit=abc` the response
(still a 200, never an error) carries 101 rows, not `min 100 101 = 100`. -/
theorem C7_counterexample :
    (handleLogRequest ((List.range 101).map fun i => ⟨i, "t", .info, "m"⟩)
        { limit := some "abc" } false).status = 200 ∧
    (handleLogRequest ((List.range 101).map fun i => ⟨i, "t", .info, "m"⟩)
        { limit := some "abc" } false).result.logs.length = 101 ∧
    101 ≠ min 100 101 := by
  refine ⟨rfl, ?_, by decide⟩
  have hres : (handleLogRequest ((List.range 101).map fun i => ⟨i, "t", .info, "m"⟩)
      { limit := some "abc" } false).result =
      getLogs ((List.range 101).map fun i => ⟨i, "t", .info, "m"⟩)
        (parseLogFilter { limit := some "abc" }) := rfl
  rw [hres]
  have hL : effLimit (parseLogFilter { limit := some "abc" }) = none := rfl
  rw [getLogs_logs_length, hL, getLogs_total]
  have hall : List.filter
      (matchesFilter (parseLogFilter { limit := some "abc" }))
      ((List.range 101).map fun i => (⟨i, "t", .info, "m"⟩ : Log)) =
      (List.range 101).map fun i => (⟨i, "t", .info, "m"⟩ : Log) :=
    List.filter_eq_self.mpr (fun a _ => rfl)
  rw [hall]
  simp

/-- C7 (amended): the request adapter is total — every `GET /log` parameter
combination yields a 200 response (JSON, or HTML when requested), never an
error; an absent `limit` becomes the default 100, an absent `offset` leaves
the offset unset (0), a `level` outside the recognized set is ignored; but a
malformed (non-numeric) `limit` degrades to `NaN`, which disables `LIMIT`
entirely so that all matching rows are returned, not the default 100. -/
theorem C7_adapter_defaults (db : List Log) (q : QueryParams) :
    (handleLogRequest db q false).status = 200 ∧
    (handleLogRequest db q false).contentType = "application/json" ∧
    (handleLogRequest db q true).status = 200 ∧
    (handleLogRequest db q true).contentType = "text/html" ∧
    (q.limit = none → (parseLogFilter q).limit = some (.int 100)) ∧
    (q.offset = none → (parseLogFilter q).offset = none) ∧
    (∀ s, q.level = some s → parseLevelParam s = none → (parseLogFilter q).level = none) ∧
    (∀ s, q.limit = some s → jsParseInt (if s = "" then "100" else s) = .nan →
      (getLogs db (parseLogFilter q)).logs.length = (getLogs db (parseLogFilter q)).total) := by
  refine ⟨rfl, rfl, rfl, rfl, ?_, ?_, ?_, ?_⟩
  · intro h; simp [parseLogFilter, h]
  · intro h; simp [parseLogFilter, h]
  · intro s hq hlev; simp [parseLogFilter, hq, hlev]
  · intro s hq hnan
    have hL : effLimit (parseLogFilter q) = none := by
      simp [effLimit, parseLogFilter, hq, hnan]
    rw [getLogs_logs_length, hL]

/-- C2: (the streaming coordinator is modelled from the spec; it is not
among the sources) a live-tail session's response has Content-Type
text/plain and its line sequence is: the historical entries — exactly those
stored entries admitted by the `to := sessionStart` fetch — formatted
oldest-first, then exactly one literal separator line, then every
subsequently appended entry as a live line in append order. -/
theorem C2_stream_session (db : List Log) (sessionStart : String) (live : List Log) :
    (streamSession db sessionStart live).contentType = "text/plain" ∧
    (∃ hist : List Log,
      (streamSession db sessionStart live).lines =
        hist.map formatLogLine ++ liveLogsSeparator :: live.map formatLogLine ∧
      List.Sorted tsAsc hist ∧
      (∀ e, e ∈ hist ↔
        e ∈ db ∧ matchesFilter { to' := some sessionStart } e = true)) ∧
    List.count liveLogsSeparator (streamSession db sessionStart live).lines = 1 := by
  refine ⟨rfl,
    ⟨List.insertionSort tsAsc (getLogs db { to' := some sessionStart }).logs,
      rfl, ?_, ?_⟩, ?_⟩
  · exact List.sorted_insertionSort tsAsc _
  · intro e
    rw [(List.perm_insertionSort tsAsc _).mem_iff]
    exact mem_getLogs_of_noLimit db { to' := some sessionStart } e rfl
  · exact count_sep_formatted _ live
